import Mathlib

/-!
Verification of the move-planning and index-reconciliation core of
`builtin-mv.c` (the `git mv` builtin).  The C code is shallowly embedded:
paths are lists of characters (the bytes of the C strings), the filesystem
metadata read by the validator is a finite association list from paths to
file types, the in-memory index (the "cache") is a list of tracked path
names kept in `strcmp` order, and `cmd_mv` is modelled as a pure function
from the initial state, the flags and a fuel bound to the run outcome
(rename calls attempted, final index, report, exit behaviour).
External collaborators that are not part of builtin-mv.c (lstat, rename,
the index primitives of cache.h, prefix_path, get_pathspec) are modelled
from the spec; their doc comments say so.
-/

namespace GitMv

/-- A path is a list of characters (the bytes of the C string). -/
abbrev Path := List Char

/-- Shorthand for writing path literals. -/
def pstr (s : String) : Path := s.data

/-- The file type distinctions the code makes on a stat result:
`S_ISDIR`, `S_ISREG`, and anything else. -/
inductive FType
  | regular
  | directory
  | other
deriving DecidableEq

/-- Modelled from the spec: the filesystem metadata the code reads, a
finite map from paths to file types. -/
abbrev FS := List (Path × FType)

/-- Modelled from the spec: the `lstat`-equivalent collaborator,
distinguishing missing / plain file / directory; `none` is a failed
`lstat`. -/
def lstat (fs : FS) (p : Path) : Option FType :=
  List.lookup p fs

/-- `S_ISDIR(st.st_mode)` on the stat buffer.  `none` stands for the buffer
before any successful `lstat`; the C code can read it stale (that staleness
is modelled faithfully by threading the buffer through the loop), and an
indeterminate initial buffer is modelled as "not a directory". -/
def isDirStat : Option FType → Bool
  | some FType.directory => true
  | _ => false

/-- Byte order on paths: `memcmp` order with the shorter string first on a
tie, the total order `cache_name_compare` keeps the index sorted in. -/
def pathLt : Path → Path → Bool
  | [], [] => false
  | [], _ :: _ => true
  | _ :: _, [] => false
  | a :: as, b :: bs => if a < b then true else if b < a then false else pathLt as bs

/-- The index is sorted strictly by `pathLt` (the invariant git keeps for
the active cache). -/
abbrev CacheSorted (cache : List Path) : Prop :=
  List.Pairwise (fun a b => pathLt a b = true) cache

/-- Modelled from the spec: the linear-scan form of the binary search
behind `cache_name_pos` — on a sorted cache it returns the exact position
of `p` when present and `-1 - insertion_point` when `p` is absent. -/
def cacheNamePosAux (p : Path) : List Path → Nat → Int
  | [], n => -1 - (n : Int)
  | q :: rest, n =>
    if pathLt q p then cacheNamePosAux p rest (n + 1)
    else if q = p then (n : Int)
    else -1 - (n : Int)

/-- `cache_name_pos(name, len)`: the position of `name` in the index, or
`-1 - pos` with `pos` the insertion point when `name` is not tracked. -/
def cache_name_pos (cache : List Path) (p : Path) : Int :=
  cacheNamePosAux p cache 0

/-- `active_cache[i]` with its bounds: `none` models an out-of-bounds
access (in particular a negative index). -/
def cacheGet (cache : List Path) (i : Int) : Option Path :=
  if i < 0 then none else cache.get? i.toNat

/-- Modelled from the spec (path-list.c): `path_list_insert` keeps the
list a sorted set, unique by path. -/
def path_list_insert (p : Path) : List Path → List Path
  | [] => [p]
  | q :: rest =>
    if pathLt p q then p :: q :: rest
    else if p = q then q :: rest
    else q :: path_list_insert p rest

/-- `add_slash` (builtin-mv.c:45-56).  The C code reads `path[len - 1]`
unconditionally, so on the empty path it reads out of bounds: that is the
`none` case.  For a non-empty path it returns the path unchanged when it
already ends in a slash and otherwise appends exactly one slash. -/
def add_slash (path : Path) : Option Path :=
  match path.getLast? with
  | none => none
  | some c => if c ≠ '/' then some (path ++ ['/']) else some path

/-- Total version of `add_slash` used inside the driver, where every
argument the C code passes is non-empty (`add_slash_total_eq` relates the
two on non-empty paths). -/
def addSlash (path : Path) : Path :=
  if path.getLast? = some '/' then path else path ++ ['/']

/-- Modelled from copy_pathspec with base_name set (builtin-mv.c:23-30):
the text after the last slash (`strrchr(s, '/') + 1`), or the whole
path when it has no slash. -/
def basename (p : Path) : Path :=
  (p.reverse.takeWhile (fun c => c != '/')).reverse

/-- Modelled from the spec: `prefix_path(prefix, len, path)` as used here
glues the first `len` characters of the prefix argument onto `path`
(pathspec normalisation is an external collaborator out of scope). -/
def pathJoin (pre : Path) (len : Nat) (p : Path) : Path :=
  pre.take len ++ p

/-- The range-scan test of builtin-mv.c:150:
`!strncmp(path, dir, len) && path[len] == '/'` — `e` lies strictly under
the directory `dir`. -/
def dirMatch (dir e : Path) : Bool :=
  dir.isPrefixOf e && e.getD dir.length '\x00' == '/'

/-- The self-containment test of builtin-mv.c:207-210:
`!strncmp(destination, source, length)` together with the destination byte
at `length` being NUL or a slash, i.e. the destination equals the source
or lies strictly under it. -/
def selfCond (src dst : Path) : Bool :=
  src.isPrefixOf dst && (dst.length == src.length || dst.getD src.length '\x00' == '/')

/-- The rejection reasons of the checking loop, in the words of the C
string literals. -/
inductive Reason
  | bad_source
  | cannot_move_directory_over_file
  | source_directory_empty
  | destination_exists
  | cannot_overwrite
  | move_into_self
  | not_tracked
  | duplicate_destination
deriving DecidableEq

/-- `enum update_mode` of builtin-mv.c:65. -/
inductive Mode
  | BOTH
  | WORKING_DIRECTORY
  | INDEX
deriving DecidableEq

/-- Everything one iteration of the checking loop produces for its pair:
the rejection reason (if any), whether the `die("Huh? ... is in index?")`
assertion fired, the stat buffer afterwards, whether
`modes[i] = WORKING_DIRECTORY` was assigned, the expanded child pairs
appended to the working list, and the updated `overwritten` and
`src_for_dst` path lists. -/
structure PairCheck where
  bad : Option Reason
  fatal : Bool
  st : Option FType
  modeSet : Bool
  appends : List (Path × Path)
  overwritten : List Path
  src_for_dst : List Path
deriving DecidableEq

/-- One iteration of the checking loop (builtin-mv.c:121-221) on the pair
`(src, dst)`.  Faithful points: a failed source `lstat` sets
`bad = "bad source"` but leaves the stat buffer `st0` untouched, and the
following `S_ISDIR(st.st_mode)` test then reads that stale buffer; the
directory branch overwrites `bad` unconditionally with
`cannot_move_directory_over_file` or `source_directory_empty`; the
file-branch checks are chained on `!bad`, so the first assigned reason
wins there. -/
def checkPair (fs : FS) (cache : List Path) (force : Bool) (st0 : Option FType)
    (overwritten src_for_dst : List Path) (src dst : Path) : PairCheck :=
  let step1 : Option Reason × Option FType :=
    match lstat fs src with
    | some t => (none, some t)
    | none => (some Reason.bad_source, st0)
  let bad0 := step1.1
  let st1 := step1.2
  if isDirStat st1 then
    match lstat fs dst with
    | some t =>
        ⟨some Reason.cannot_move_directory_over_file, false, some t, false, [],
          overwritten, src_for_dst⟩
    | none =>
        let first0 := cache_name_pos cache src
        if 0 ≤ first0 then
          ⟨bad0, true, st1, true, [], overwritten, src_for_dst⟩
        else
          let first := (-1 - first0).toNat
          let block := (cache.drop first).takeWhile (fun e => dirMatch src e)
          if block.length < 1 then
            ⟨some Reason.source_directory_empty, false, st1, true, [],
              overwritten, src_for_dst⟩
          else if bad0 = none then
            ⟨none, false, st1, true,
              block.map (fun e => (e, pathJoin (addSlash dst) dst.length (e.drop src.length))),
              overwritten, src_for_dst⟩
          else
            ⟨bad0, false, st1, true, [], overwritten, src_for_dst⟩
  else
    let step2 : Option Reason × Option FType × List Path :=
      match bad0 with
      | some r => (some r, st1, overwritten)
      | none =>
        match lstat fs dst with
        | none => (none, st1, overwritten)
        | some t =>
          if force then
            if t = FType.regular then (none, some t, path_list_insert dst overwritten)
            else (some Reason.cannot_overwrite, some t, overwritten)
          else (some Reason.destination_exists, some t, overwritten)
    let bad1 := step2.1
    let st2 := step2.2.1
    let ow1 := step2.2.2
    let bad2 := if bad1 = none ∧ selfCond src dst = true then some Reason.move_into_self else bad1
    let bad3 := if bad2 = none ∧ cache_name_pos cache src < 0 then some Reason.not_tracked else bad2
    if bad3 = none then
      if dst ∈ src_for_dst then
        ⟨some Reason.duplicate_destination, false, st2, false, [], ow1, src_for_dst⟩
      else
        ⟨none, false, st2, false, [], ow1, path_list_insert dst src_for_dst⟩
    else ⟨bad3, false, st2, false, [], ow1, src_for_dst⟩

/-- The working state of the checking loop: the three parallel arrays
(`source`, `destination`, `modes`), the live pair count (the physical
`modes` array can be longer than `count`, because the `-k` compaction
shifts only `source` and `destination`), the stat buffer, and the two
path lists the loop accumulates. -/
structure VState where
  source : List Path
  destination : List Path
  modes : List Mode
  count : Nat
  st : Option FType
  overwritten : List Path
  src_for_dst : List Path
deriving DecidableEq

/-- Writing `modes[count + j] = INDEX` for `j < k` during directory
expansion: the slots `start .. start + k - 1` are overwritten (or the
array grows), everything else is kept. -/
def overwriteFrom (l : List Mode) (start k : Nat) : List Mode :=
  l.take start ++ List.replicate k Mode.INDEX ++ l.drop (start + k)

/-- Result of the whole checking loop. -/
inductive VResult
  | ok (s : VState)
  | vdied (r : Reason) (src dst : Path)
  | huh (src : Path)
  | fuelOut
deriving DecidableEq

/-- The checking loop (builtin-mv.c:121-237), with explicit fuel (each
call consumes one unit; `fuelOut` only means the bound was too small).
Faithful points: on a rejection under `-k` the code does
`if (--count > 0) memmove(...)` on `source` and `destination` only —
`modes` is left unshifted — and the loop variable still advances, so the
pair shifted into the rejected slot is never itself validated; directory
expansion appends to all three arrays and grows `count`. -/
def validLoop (fs : FS) (cache : List Path) (force ignore_errors : Bool) :
    Nat → Nat → VState → VResult
  | 0, _, _ => VResult.fuelOut
  | fuel + 1, i, s =>
    if s.count ≤ i then VResult.ok s
    else
      let src := s.source.getD i []
      let dst := s.destination.getD i []
      let c := checkPair fs cache force s.st s.overwritten s.src_for_dst src dst
      if c.fatal then VResult.huh src
      else
        let modes1 := if c.modeSet then s.modes.set i Mode.WORKING_DIRECTORY else s.modes
        let k := c.appends.length
        let s1 : VState :=
          { source := s.source ++ c.appends.map Prod.fst,
            destination := s.destination ++ c.appends.map Prod.snd,
            modes := overwriteFrom modes1 s.count k,
            count := s.count + k,
            st := c.st,
            overwritten := c.overwritten,
            src_for_dst := c.src_for_dst }
        match c.bad with
        | none => validLoop fs cache force ignore_errors fuel (i + 1) s1
        | some r =>
          if ignore_errors then
            validLoop fs cache force ignore_errors fuel (i + 1)
              { s1 with
                source := s1.source.eraseIdx i,
                destination := s1.destination.eraseIdx i,
                count := s1.count - 1 }
          else VResult.vdied r src dst

/-- The report of the run: the `changed`, `added` and `deleted` path
lists (builtin-mv.c:69-71). -/
structure Report where
  changed : List Path
  added : List Path
  deleted : List Path
deriving DecidableEq

def emptyReport : Report := ⟨[], [], []⟩

/-- Modelled from the spec: POSIX `rename` (declared out of scope there),
reduced to what the claims need — it succeeds exactly when the source
path exists, and then moves that path together with everything beneath
it. -/
def renameFS (fs : FS) (src dst : Path) : Option FS :=
  match lstat fs src with
  | none => none
  | some _ => some (fs.map (fun e =>
      (if e.1 = src then dst
       else if (src ++ ['/']).isPrefixOf e.1 then dst ++ e.1.drop src.length
       else e.1, e.2)))

/-- The per-pair classification of builtin-mv.c:249-261: directory
renames contribute nothing; otherwise, a source still found in the
(unmutated) index puts the source into `deleted` and the destination into
`changed` when it was force-overwritten, `added` otherwise; a missing
source puts the destination straight into `added`. -/
def classifyPair (cache overwritten : List Path) (src dst : Path) (m : Mode)
    (rep : Report) : Report :=
  if m = Mode.WORKING_DIRECTORY then rep
  else if 0 ≤ cache_name_pos cache src then
    { changed := if dst ∈ overwritten then path_list_insert dst rep.changed else rep.changed,
      added := if dst ∈ overwritten then rep.added else path_list_insert dst rep.added,
      deleted := path_list_insert src rep.deleted }
  else { rep with added := path_list_insert dst rep.added }

/-- Result of the execution loop: the rename failure it died on (if any,
and only when neither `-n` nor `-k` saved it), the filesystem afterwards,
the rename system calls attempted, and the accumulated report. -/
structure ExecOut where
  aborted : Option (Path × Path)
  fs : FS
  renameCalls : List (Path × Path)
  rep : Report
deriving DecidableEq

/-- The execution loop (builtin-mv.c:239-262).  `rename` is attempted for
every pair not of mode `INDEX` unless `-n`; a failure dies unless `-k`;
classification always runs against the still-unmutated index. -/
def execLoop (show_only ignore_errors : Bool) (cache overwritten : List Path) :
    List (Path × Path × Mode) → FS → List (Path × Path) → Report → ExecOut
  | [], fs, calls, rep => ⟨none, fs, calls, rep⟩
  | (src, dst, m) :: rest, fs, calls, rep =>
    if show_only = false ∧ m ≠ Mode.INDEX then
      match renameFS fs src dst with
      | some fs2 =>
          execLoop show_only ignore_errors cache overwritten rest fs2
            (calls ++ [(src, dst)]) (classifyPair cache overwritten src dst m rep)
      | none =>
          if ignore_errors then
            execLoop show_only ignore_errors cache overwritten rest fs
              (calls ++ [(src, dst)]) (classifyPair cache overwritten src dst m rep)
          else ⟨some (src, dst), fs, calls ++ [(src, dst)], rep⟩
    else
      execLoop show_only ignore_errors cache overwritten rest fs calls
        (classifyPair cache overwritten src dst m rep)

/-- Outcome of one step of the changed-set refresh loop
(builtin-mv.c:269-277).  The C code computes
`i = cache_name_pos(path, ...)`, then reads `active_cache[i]`, and only
then tests `i < 0`: the array access happens before the not-found check,
so a negative position is an out-of-bounds read (`oobAccess`), and the
`die("Huh? Cache entry ...")` after it (`diedUnknown`) can never be
reached. -/
inductive RefreshStep
  | okref
  | oobAccess
  | diedUnknown
deriving DecidableEq

/-- One step of the changed-set refresh: look the path up, access the
cache array at the returned position, then check the position for
not-found.  The refresh itself (`refresh_cache_entry(ce, 0)`) has its
result discarded by the C code and our index stores names only, so the
index value is unchanged. -/
def refreshStep (cache : List Path) (p : Path) : RefreshStep :=
  let i := cache_name_pos cache p
  match cacheGet cache i with
  | none => RefreshStep.oobAccess
  | some _ => if i < 0 then RefreshStep.diedUnknown else RefreshStep.okref

/-- First failing refresh step over the changed list, if any. -/
inductive RefreshFail
  | oobAccess (p : Path)
  | unknownEntry (p : Path)
deriving DecidableEq

def refreshScan (cache : List Path) : List Path → Option RefreshFail
  | [] => none
  | p :: rest =>
    match refreshStep cache p with
    | RefreshStep.okref => refreshScan cache rest
    | RefreshStep.oobAccess => some (RefreshFail.oobAccess p)
    | RefreshStep.diedUnknown => some (RefreshFail.unknownEntry p)

/-- Every way `cmd_mv` can `die`. -/
inductive DieKind
  | validation (r : Reason) (src dst : Path)
  | huhInIndex (src : Path)
  | renameFail (src dst : Path)
  | oobRead (p : Path)
  | unknownEntry (p : Path)
  | writeFail
deriving DecidableEq

inductive Outcome
  | exit0
  | usage
  | died (k : DieKind)
  | fuelOut
deriving DecidableEq

/-- A run under `-k` can only exit non-zero through a die that is not a
per-pair validation or rename failure; this predicate picks out exactly
those two per-pair failure dies. -/
def diedOnPairFailure : Outcome → Bool
  | Outcome.died (DieKind.validation _ _ _) => true
  | Outcome.died (DieKind.renameFail _ _) => true
  | _ => false

/-- The complete observable result of one `cmd_mv` invocation: the exit
behaviour, the final filesystem and in-memory index, every rename system
call attempted, the changed/added/deleted report, and whether the index
was persisted. -/
structure MvRun where
  outcome : Outcome
  fs : FS
  cache : List Path
  renameCalls : List (Path × Path)
  report : Report
  persisted : Bool
deriving DecidableEq

/-- The tail of `cmd_mv` after the execution loop (builtin-mv.c:264-297):
on a rename die the run aborts; under `-n` only the report is shown; a
real run refreshes the changed entries (the out-of-bounds access of C9
lives here), inserts the added entries, removes the deleted ones, and
persists the index exactly when it changed. -/
def mvFinish (show_only : Bool) (_fs0 : FS) (cache0 : List Path) (persistOk : Bool)
    (e : ExecOut) : MvRun :=
  match e.aborted with
  | some (a, b) => ⟨Outcome.died (DieKind.renameFail a b), e.fs, cache0, e.renameCalls, e.rep, false⟩
  | none =>
    if show_only then ⟨Outcome.exit0, e.fs, cache0, e.renameCalls, e.rep, false⟩
    else
      match refreshScan cache0 e.rep.changed with
      | some (RefreshFail.oobAccess p) =>
          ⟨Outcome.died (DieKind.oobRead p), e.fs, cache0, e.renameCalls, e.rep, false⟩
      | some (RefreshFail.unknownEntry p) =>
          ⟨Outcome.died (DieKind.unknownEntry p), e.fs, cache0, e.renameCalls, e.rep, false⟩
      | none =>
        let cache1 := e.rep.added.foldl (fun c p => path_list_insert p c) cache0
        let cache2 := e.rep.deleted.foldl (fun c p => c.erase p) cache1
        if e.rep.added ≠ [] ∨ e.rep.deleted ≠ [] then
          if persistOk then ⟨Outcome.exit0, e.fs, cache2, e.renameCalls, e.rep, true⟩
          else ⟨Outcome.died DieKind.writeFail, e.fs, cache2, e.renameCalls, e.rep, false⟩
        else ⟨Outcome.exit0, e.fs, cache2, e.renameCalls, e.rep, false⟩

/-- The plan the execution loop walks: the first `count` slots of the
three parallel arrays, in order. -/
def planOf (s : VState) : List (Path × Path × Mode) :=
  (List.range s.count).map (fun j =>
    (s.source.getD j [], s.destination.getD j [], s.modes.getD j Mode.BOTH))

/-- `cmd_mv` from the end of the checking loop on: dispatch on how the
checking loop ended, then run the execution loop and `mvFinish`. -/
def mvValidated (show_only ignore_errors : Bool) (fs0 : FS) (cache0 : List Path)
    (persistOk : Bool) (vres : VResult) : MvRun :=
  match vres with
  | VResult.fuelOut => ⟨Outcome.fuelOut, fs0, cache0, [], emptyReport, false⟩
  | VResult.huh src => ⟨Outcome.died (DieKind.huhInIndex src), fs0, cache0, [], emptyReport, false⟩
  | VResult.vdied r a b =>
      ⟨Outcome.died (DieKind.validation r a b), fs0, cache0, [], emptyReport, false⟩
  | VResult.ok s =>
      mvFinish show_only fs0 cache0 persistOk
        (execLoop show_only ignore_errors cache0 s.overwritten (planOf s) fs0 [] emptyReport)

/-- `cmd_mv` from the point where the destinations are resolved: `none`
is the usage error of builtin-mv.c:115-116, otherwise the checking loop
runs on the initial parallel arrays (modes all `BOTH`, the stat buffer
holding whatever the destination `lstat` of line 110 left there). -/
def mvWithDest (show_only force ignore_errors : Bool) (fs0 : FS) (cache0 : List Path)
    (persistOk : Bool) (fuel : Nat) (srcs : List Path) (stDest : Option FType)
    (destRes : Option (List Path)) : MvRun :=
  match destRes with
  | none => ⟨Outcome.usage, fs0, cache0, [], emptyReport, false⟩
  | some destination =>
    mvValidated show_only ignore_errors fs0 cache0 persistOk
      (validLoop fs0 cache0 force ignore_errors fuel 0
        ⟨srcs, destination, List.replicate srcs.length Mode.BOTH, srcs.length, stDest, [], []⟩)

/-- `cmd_mv` (builtin-mv.c:60-298) from the point where the flags are
known: `srcs` are the source pathspecs, `destArg` the single destination
argument.  Destination resolution (lines 110-118): when `destArg` stats
as a directory each source's destination is `destArg/ basename(source)`,
otherwise exactly one source is required; note the destination `lstat`
loads the stat buffer that line 132 can later read stale.  `persistOk`
models whether the final `write_cache`/`commit_lock_file` sequence
succeeds.  `fuel` bounds the checking loop only. -/
def cmd_mv (fs0 : FS) (cache0 : List Path) (show_only force ignore_errors : Bool)
    (srcs : List Path) (destArg : Path) (persistOk : Bool) (fuel : Nat) : MvRun :=
  let count := srcs.length
  if count < 1 then ⟨Outcome.usage, fs0, cache0, [], emptyReport, false⟩
  else
    let stDest := lstat fs0 destArg
    mvWithDest show_only force ignore_errors fs0 cache0 persistOk fuel srcs stDest
      (if isDirStat stDest then some (srcs.map (fun s => addSlash destArg ++ basename s))
       else if count ≠ 1 then none
       else some [destArg])

/-- Triple zip, used to describe the plan of a validated state as the
pointwise tuple of its three parallel arrays. -/
def zip3 : List Path → List Path → List Mode → List (Path × Path × Mode)
  | x :: xs, y :: ys, z :: zs => (x, y, z) :: zip3 xs ys zs
  | _, _, _ => []

/-- The report the execution loop accumulates over a list of expanded
child pairs: each child `e` inserts its destination `g e` into `added`
and `e` itself into `deleted`, and never touches `changed`. -/
def childFold (g : Path → Path) (ks : List Path) (rep : Report) : Report :=
  ks.foldl (fun r e =>
    ⟨r.changed, path_list_insert (g e) r.added, path_list_insert e r.deleted⟩) rep

/-- The working state of the checking loop after a single directory
expansion `a -> b` appended the child pairs for `kids`: pair 0 is the
directory itself (mode `WORKING_DIRECTORY`), pairs 1..k are the children
(mode `INDEX`) with destinations `b ++ (child minus the directory part)`. -/
def kidState (a b : Path) (kids : List Path) (st0 : Option FType) (sfd : List Path) : VState :=
  ⟨a :: kids, b :: kids.map (fun e => b ++ e.drop a.length),
    Mode.WORKING_DIRECTORY :: List.replicate kids.length Mode.INDEX,
    1 + kids.length, st0, [], sfd⟩

/-! ### Helper lemmas about the path order, the index lookup and the path lists -/

theorem pathLt_irrefl (p : Path) : pathLt p p = false := by
  induction p with
  | nil => rfl
  | cons c cs ih => simp [pathLt, ih]

theorem cacheNamePosAux_nil (p : Path) (n : Nat) :
    cacheNamePosAux p [] n = -1 - (n : Int) := rfl

theorem cacheNamePosAux_cons (p q : Path) (rest : List Path) (n : Nat) :
    cacheNamePosAux p (q :: rest) n =
      if pathLt q p then cacheNamePosAux p rest (n + 1)
      else if q = p then (n : Int) else -1 - (n : Int) := rfl

theorem cacheNamePosAux_nonneg_iff {p : Path} :
    ∀ {c : List Path}, List.Pairwise (fun a b => pathLt a b = true) c →
      ∀ n : Nat, (0 ≤ cacheNamePosAux p c n ↔ p ∈ c) := by
  intro c
  induction c with
  | nil =>
    intro _ n
    rw [cacheNamePosAux_nil]
    simp only [List.not_mem_nil, iff_false, not_le]
    omega
  | cons q rest ih =>
    intro hp n
    have hq := (List.pairwise_cons.1 hp).1
    have hrest := (List.pairwise_cons.1 hp).2
    rw [cacheNamePosAux_cons]
    by_cases h1 : pathLt q p = true
    · rw [if_pos h1]
      have hpq : p ≠ q := by
        intro e
        rw [e, pathLt_irrefl] at h1
        exact Bool.false_ne_true h1
      rw [ih hrest (n + 1)]
      simp [List.mem_cons, hpq]
    · rw [if_neg h1]
      by_cases h2 : q = p
      · rw [if_pos h2]
        subst h2
        constructor
        · intro _
          exact List.mem_cons_self _ _
        · intro _
          omega
      · rw [if_neg h2]
        have hpq : p ≠ q := fun e => h2 e.symm
        have hnr : p ∉ rest := fun hm => h1 (hq p hm)
        constructor
        · intro hle
          exfalso
          omega
        · intro hm
          rcases List.mem_cons.1 hm with e | hm2
          · exact absurd e hpq
          · exact absurd hm2 hnr

theorem cacheNamePosAux_lt (p : Path) :
    ∀ (c : List Path) (n : Nat), 0 ≤ cacheNamePosAux p c n →
      cacheNamePosAux p c n < (n : Int) + c.length := by
  intro c
  induction c with
  | nil =>
    intro n h
    rw [cacheNamePosAux_nil] at h ⊢
    omega
  | cons q rest ih =>
    intro n h
    rw [cacheNamePosAux_cons] at h ⊢
    by_cases h1 : pathLt q p = true
    · rw [if_pos h1] at h ⊢
      have h3 := ih (n + 1) h
      simp only [List.length_cons]
      push_cast at h3 ⊢
      omega
    · rw [if_neg h1] at h ⊢
      by_cases h2 : q = p
      · rw [if_pos h2] at h ⊢
        simp only [List.length_cons]
        push_cast
        omega
      · rw [if_neg h2] at h ⊢
        exfalso
        omega

theorem cache_name_pos_nonneg_iff {cache : List Path} (hs : CacheSorted cache) (p : Path) :
    0 ≤ cache_name_pos cache p ↔ p ∈ cache :=
  cacheNamePosAux_nonneg_iff hs 0

theorem path_list_insert_cons (p q : Path) (rest : List Path) :
    path_list_insert p (q :: rest) =
      if pathLt p q then p :: q :: rest
      else if p = q then q :: rest
      else q :: path_list_insert p rest := rfl

theorem mem_path_list_insert {p q : Path} :
    ∀ {l : List Path}, (q ∈ path_list_insert p l ↔ q = p ∨ q ∈ l) := by
  intro l
  induction l with
  | nil => simp [path_list_insert]
  | cons a rest ih =>
    rw [path_list_insert_cons]
    by_cases h1 : pathLt p a = true
    · rw [if_pos h1]
      simp only [List.mem_cons]
    · rw [if_neg h1]
      by_cases h2 : p = a
      · rw [if_pos h2]
        subst h2
        simp only [List.mem_cons]
        tauto
      · rw [if_neg h2]
        simp only [List.mem_cons, ih]
        tauto

theorem length_path_list_insert {p : Path} :
    ∀ {l : List Path}, p ∉ l → (path_list_insert p l).length = l.length + 1 := by
  intro l
  induction l with
  | nil => intro _; rfl
  | cons a rest ih =>
    intro hnm
    have hpa : p ≠ a := fun e => hnm (e ▸ List.mem_cons_self a rest)
    have hnr : p ∉ rest := fun hm => hnm (List.mem_cons_of_mem a hm)
    rw [path_list_insert_cons]
    by_cases h1 : pathLt p a = true
    · rw [if_pos h1]
      simp
    · rw [if_neg h1, if_neg hpa]
      simp [ih hnr]

theorem isPrefixOf_iff_exists {l1 l2 : List Char} :
    l1.isPrefixOf l2 = true ↔ ∃ t, l2 = l1 ++ t := by
  induction l1 generalizing l2 with
  | nil =>
    simp [List.isPrefixOf]
  | cons a l ih =>
    cases l2 with
    | nil =>
      simp [List.isPrefixOf]
    | cons b m =>
      simp only [List.isPrefixOf, Bool.and_eq_true, beq_iff_eq, ih, List.cons_append,
        List.cons.injEq]
      constructor
      · rintro ⟨hab, t, ht⟩
        exact ⟨t, hab.symm, ht⟩
      · rintro ⟨t, hab, ht⟩
        exact ⟨hab.symm, t, ht⟩

theorem getD_append_len {α : Type} (d x : α) :
    ∀ (l1 l2 : List α), (l1 ++ x :: l2).getD l1.length d = x := by
  intro l1
  induction l1 with
  | nil => intro l2; rfl
  | cons a l ih => intro l2; simpa using ih l2

theorem selfCond_self (p : Path) : selfCond p p = true := by
  have h : p.isPrefixOf p = true := isPrefixOf_iff_exists.2 ⟨[], by simp⟩
  simp only [selfCond, h, Bool.true_and, beq_self_eq_true, Bool.true_or]

theorem selfCond_nested {src dst : Path} (h : (src ++ ['/']).isPrefixOf dst = true) :
    selfCond src dst = true := by
  rcases isPrefixOf_iff_exists.1 h with ⟨t, ht⟩
  have ht2 : dst = src ++ '/' :: t := by simpa using ht
  subst ht2
  have h1 : src.isPrefixOf (src ++ '/' :: t) = true :=
    isPrefixOf_iff_exists.2 ⟨'/' :: t, rfl⟩
  have h2 : (src ++ '/' :: t).getD src.length '\x00' = '/' := getD_append_len _ _ _ _
  simp only [selfCond, h1, Bool.true_and, h2, beq_self_eq_true, Bool.or_true]

theorem add_slash_total_eq {p : Path} (h : p ≠ []) : add_slash p = some (addSlash p) := by
  unfold add_slash addSlash
  cases hl : p.getLast? with
  | none => exact absurd (List.getLast?_eq_none_iff.1 hl) h
  | some c =>
    by_cases hc : c = '/'
    · subst hc
      simp
    · simp [hc]

/-! ### Claim theorems -/

/-- C10 (confirmed): `add_slash` inspects the byte at `length - 1`, so on
the empty path it performs an out-of-bounds read (modelled as `none`); on
every non-empty path it returns the path unchanged when it already ends in
a slash and otherwise appends exactly one slash. -/
theorem add_slash_spec (p : Path) :
    add_slash ([] : Path) = none ∧
    (p ≠ [] → add_slash p = some (if p.getLast? = some '/' then p else p ++ ['/'])) := by
  refine ⟨rfl, fun h => ?_⟩
  rw [add_slash_total_eq h]
  rfl

theorem add_slash_spec_witness :
    (pstr "a" ≠ [] ∧ add_slash (pstr "a") = some (pstr "a/")) ∧
    (pstr "b/" ≠ [] ∧ add_slash (pstr "b/") = some (pstr "b/")) := by
  constructor
  · refine ⟨by decide, ?_⟩
    rw [(add_slash_spec (pstr "a")).2 (by decide)]
    decide
  · refine ⟨by decide, ?_⟩
    rw [(add_slash_spec (pstr "b/")).2 (by decide)]
    decide

theorem refreshStep_eq_oob_iff {cache : List Path} (hs : CacheSorted cache) (p : Path) :
    refreshStep cache p = RefreshStep.oobAccess ↔ p ∉ cache := by
  simp only [refreshStep, cacheGet]
  by_cases h : cache_name_pos cache p < 0
  · rw [if_pos h]
    constructor
    · intro _ hm
      have := (cache_name_pos_nonneg_iff hs p).2 hm
      omega
    · intro _
      rfl
  · rw [if_neg h]
    have h0 : 0 ≤ cache_name_pos cache p := by omega
    have hb := cacheNamePosAux_lt p cache 0 h0
    have hlt : (cache_name_pos cache p).toNat < cache.length := by
      unfold cache_name_pos at h0 hb ⊢
      omega
    rw [List.get?_eq_get hlt]
    simp only [if_neg h]
    constructor
    · intro he
      exact absurd he (by simp)
    · intro hnm
      exact absurd ((cache_name_pos_nonneg_iff hs p).1 h0) hnm

/-- C9 (confirmed): in the changed-set refresh loop the cache array is
accessed at the looked-up position before the negative (not-found) result
is checked, so on a sorted index the access is in bounds for every path
of the changed set exactly when every such path is still present in the
index; and the `die("Huh? Cache entry ...")` guard placed after the
access can never fire. -/
theorem mv_changed_refresh_access_in_bounds_iff_tracked
    (cache changed : List Path) (hs : CacheSorted cache) :
    ((∀ p ∈ changed, refreshStep cache p ≠ RefreshStep.oobAccess) ↔
      (∀ p ∈ changed, p ∈ cache)) ∧
    (∀ p : Path, refreshStep cache p ≠ RefreshStep.diedUnknown) := by
  constructor
  · constructor
    · intro h p hp
      by_contra hnc
      exact h p hp ((refreshStep_eq_oob_iff hs p).2 hnc)
    · intro h p hp heq
      exact absurd ((refreshStep_eq_oob_iff hs p).1 heq) (by simp [h p hp])
  · intro p
    simp only [refreshStep, cacheGet]
    by_cases h : cache_name_pos cache p < 0
    · rw [if_pos h]
      simp
    · rw [if_neg h]
      cases hg : cache.get? (cache_name_pos cache p).toNat with
      | none => simp
      | some q => simp [if_neg h]

theorem mv_changed_refresh_witness :
    CacheSorted [pstr "a"] ∧
    (((∀ p ∈ [pstr "b"], refreshStep [pstr "a"] p ≠ RefreshStep.oobAccess) ↔
        (∀ p ∈ [pstr "b"], p ∈ [pstr "a"])) ∧
      (∀ p : Path, refreshStep [pstr "a"] p ≠ RefreshStep.diedUnknown)) :=
  ⟨by decide, mv_changed_refresh_access_in_bounds_iff_tracked [pstr "a"] [pstr "b"] (by decide)⟩

/-- C1 counterexample: the pair `a -> a` where `a` is a tracked plain
file, without `--force`.  The destination equals the source, so C1 as
stated says the reason is `move_into_self`; the code reports
`destination exists` instead, because the destination-exists check fires
first and the later checks are skipped once `bad` is set. -/
theorem mv_self_dest_without_force_reports_dest_exists :
    (checkPair [(pstr "a", FType.regular)] [pstr "a"] false none [] []
        (pstr "a") (pstr "a")).bad = some Reason.destination_exists ∧
    (checkPair [(pstr "a", FType.regular)] [pstr "a"] false none [] []
        (pstr "a") (pstr "a")).bad ≠ some Reason.move_into_self := by
  decide

/-- C1 (amended): for a pair whose source `lstat`s as a non-directory, a
destination equal to the source or nested under it is always rejected:
with reason `move_into_self` whenever the destination-exists check passes
(destination absent, or `--force` with a plain-file destination), and
with `destination_exists` (no force) or `cannot_overwrite` (force,
non-plain destination) when the destination itself exists.  Directory
sources take the directory branch and never reach this check. -/
theorem mv_file_source_self_nested_rejected
    (fs : FS) (cache : List Path) (force : Bool) (st0 : Option FType)
    (ow sfd : List Path) (src dst : Path) (t : FType)
    (hsrc : lstat fs src = some t) (hnd : t ≠ FType.directory)
    (hself : dst = src ∨ (src ++ ['/']).isPrefixOf dst = true) :
    (checkPair fs cache force st0 ow sfd src dst).bad ≠ none ∧
    (lstat fs dst = none →
      (checkPair fs cache force st0 ow sfd src dst).bad = some Reason.move_into_self) ∧
    (∀ u, lstat fs dst = some u → force = false →
      (checkPair fs cache force st0 ow sfd src dst).bad = some Reason.destination_exists) ∧
    (∀ u, lstat fs dst = some u → force = true → u = FType.regular →
      (checkPair fs cache force st0 ow sfd src dst).bad = some Reason.move_into_self) ∧
    (∀ u, lstat fs dst = some u → force = true → u ≠ FType.regular →
      (checkPair fs cache force st0 ow sfd src dst).bad = some Reason.cannot_overwrite) := by
  have hsc : selfCond src dst = true := by
    rcases hself with h | h
    · rw [h]
      exact selfCond_self src
    · exact selfCond_nested h
  have hdir : isDirStat (some t) = false := by
    cases t with
    | directory => exact absurd rfl hnd
    | regular => rfl
    | other => rfl
  refine ⟨?_, ?_, ?_, ?_, ?_⟩
  · cases hdst : lstat fs dst with
    | none => simp [checkPair, hsrc, hdir, hdst, hsc]
    | some u =>
      cases force with
      | false => simp [checkPair, hsrc, hdir, hdst, hsc]
      | true =>
        by_cases hu : u = FType.regular
        · subst hu
          simp [checkPair, hsrc, hdir, hdst, hsc]
        · simp [checkPair, hsrc, hdir, hdst, hsc, hu]
  · intro hdst
    simp [checkPair, hsrc, hdir, hdst, hsc]
  · intro u hdst hf
    subst hf
    simp [checkPair, hsrc, hdir, hdst, hsc]
  · intro u hdst hf hu
    subst hf
    subst hu
    simp [checkPair, hsrc, hdir, hdst, hsc]
  · intro u hdst hf hu
    subst hf
    simp [checkPair, hsrc, hdir, hdst, hsc, hu]

theorem mv_file_source_self_nested_rejected_witness :
    (lstat [(pstr "a", FType.regular)] (pstr "a") = some FType.regular ∧
      FType.regular ≠ FType.directory ∧
      ((pstr "a/b") = pstr "a" ∨ ((pstr "a" ++ ['/']).isPrefixOf (pstr "a/b")) = true) ∧
      lstat [(pstr "a", FType.regular)] (pstr "a/b") = none) ∧
    (checkPair [(pstr "a", FType.regular)] [] false none [] []
        (pstr "a") (pstr "a/b")).bad = some Reason.move_into_self :=
  ⟨⟨by decide, by decide, by decide, by decide⟩,
    (mv_file_source_self_nested_rejected [(pstr "a", FType.regular)] [] false none [] []
      (pstr "a") (pstr "a/b") FType.regular (by decide) (by decide)
      (Or.inr (by decide))).2.1 (by decide)⟩

/-- C8 counterexample: `git mv -f a a` for a tracked plain file `a`.  The
destination exists as a plain file and force is on, so C8 as stated says
the pair is accepted; the code rejects it with `move_into_self` (the
force-overwrite only clears the `destination exists` rejection, after
which the self-containment check still fires). -/
theorem mv_force_self_overwrite_rejected_not_accepted :
    (checkPair [(pstr "a", FType.regular)] [pstr "a"] true none [] []
        (pstr "a") (pstr "a")).bad = some Reason.move_into_self ∧
    (checkPair [(pstr "a", FType.regular)] [pstr "a"] true none [] []
        (pstr "a") (pstr "a")).bad ≠ none := by
  decide

/-- C8 (amended): for a pair whose source `lstat`s as a non-directory and
whose destination exists as a plain file: without `--force` the pair is
rejected with `destination_exists`; with `--force` the rejection is
waived and the destination is recorded into the overwrite set, and if the
pair also passes the remaining checks (not self-nested, source tracked,
destination not already claimed) it is accepted; on execution a pair
whose destination is in the overwrite set and whose source is still in
the index puts the destination into the changed set and leaves the added
set untouched. -/
theorem mv_plain_file_overwrite_classification
    (fs : FS) (cache : List Path) (st0 : Option FType) (ow sfd : List Path)
    (src dst : Path) (t : FType)
    (hsrc : lstat fs src = some t) (hnd : t ≠ FType.directory)
    (hdst : lstat fs dst = some FType.regular) :
    ((checkPair fs cache false st0 ow sfd src dst).bad = some Reason.destination_exists) ∧
    (selfCond src dst = false → 0 ≤ cache_name_pos cache src → dst ∉ sfd →
      (checkPair fs cache true st0 ow sfd src dst).bad = none ∧
      dst ∈ (checkPair fs cache true st0 ow sfd src dst).overwritten) ∧
    (∀ (ow2 : List Path) (m : Mode) (rep : Report),
      m ≠ Mode.WORKING_DIRECTORY → 0 ≤ cache_name_pos cache src → dst ∈ ow2 →
      dst ∈ (classifyPair cache ow2 src dst m rep).changed ∧
      (classifyPair cache ow2 src dst m rep).added = rep.added) := by
  have hdir : isDirStat (some t) = false := by
    cases t with
    | directory => exact absurd rfl hnd
    | regular => rfl
    | other => rfl
  refine ⟨?_, ?_, ?_⟩
  · simp [checkPair, hsrc, hdir, hdst]
  · intro hsc hpos hnm
    have hnlt : ¬cache_name_pos cache src < 0 := by omega
    constructor
    · simp [checkPair, hsrc, hdir, hdst, hsc, hnlt, hnm]
    · simp [checkPair, hsrc, hdir, hdst, hsc, hnlt, hnm]
      exact mem_path_list_insert.2 (Or.inl rfl)
  · intro ow2 m rep hm hpos how
    unfold classifyPair
    rw [if_neg hm, if_pos hpos, if_pos how, if_pos how]
    exact ⟨mem_path_list_insert.2 (Or.inl rfl), rfl⟩

theorem mv_plain_file_overwrite_classification_witness :
    ((checkPair [(pstr "d", FType.regular), (pstr "s", FType.regular)] [pstr "s"]
        false none [] [] (pstr "s") (pstr "d")).bad = some Reason.destination_exists) ∧
    ((checkPair [(pstr "d", FType.regular), (pstr "s", FType.regular)] [pstr "s"]
        true none [] [] (pstr "s") (pstr "d")).bad = none ∧
      pstr "d" ∈ (checkPair [(pstr "d", FType.regular), (pstr "s", FType.regular)] [pstr "s"]
        true none [] [] (pstr "s") (pstr "d")).overwritten) ∧
    (pstr "d" ∈ (classifyPair [pstr "s"] [pstr "d"] (pstr "s") (pstr "d") Mode.BOTH
        emptyReport).changed ∧
      (classifyPair [pstr "s"] [pstr "d"] (pstr "s") (pstr "d") Mode.BOTH
        emptyReport).added = emptyReport.added) := by
  have h := mv_plain_file_overwrite_classification
    [(pstr "d", FType.regular), (pstr "s", FType.regular)] [pstr "s"] none [] []
    (pstr "s") (pstr "d") FType.regular (by decide) (by decide) (by decide)
  exact ⟨h.1, h.2.1 (by decide) (by decide) (by decide),
    h.2.2 [pstr "d"] Mode.BOTH emptyReport (by decide) (by decide) (by decide)⟩

/-- C2 (code bug demonstrated): sources `["missing"]` (no such path on
disk), destination argument `d`, an existing directory, empty index, no
flags.  The claim (and the spec) say a nonexistent source is rejected
with `bad_source`.  The code first assigns `bad = "bad source"`, but the
failed `lstat` leaves the stat buffer still holding the destination
directory's stat from line 110, so `S_ISDIR(st.st_mode)` is true and the
directory branch runs and overwrites `bad`: the reported reason is
`source_directory_empty`. -/
theorem mv_missing_source_stale_stat_reports_empty_source_dir :
    (cmd_mv [(pstr "d", FType.directory)] [] false false false
        [pstr "missing"] (pstr "d") true 5).outcome
      = Outcome.died (DieKind.validation Reason.source_directory_empty
          (pstr "missing") (pstr "d/missing")) := by
  decide

/-- C3 (code bug demonstrated): `git mv -k adir x/f d` where `adir` is a
tracked directory (entry `adir/k`), `x/f` exists but is untracked, and
`d` is an existing directory.  Directory expansion appends the child pair
`adir/k -> d/adir/k` with mode `INDEX`; then the rejection of `x/f`
compacts `source` and `destination` but not `modes`, so the child pair
ends up paired with the stale mode `BOTH` of the rejected slot (and is
never re-validated).  Execution therefore issues a second, spurious
`rename` call for `adir/k` — the claim says a directory move with a
compaction still performs exactly the renames of the compacted plan, with
all three components kept aligned. -/
theorem mv_ignore_errors_modes_desync_demo :
    (cmd_mv [(pstr "d", FType.directory), (pstr "adir", FType.directory),
        (pstr "adir/k", FType.regular), (pstr "x/f", FType.regular)]
      [pstr "adir/k"] false false true [pstr "adir", pstr "x/f"] (pstr "d") true 6).renameCalls
      = [(pstr "adir", pstr "d/adir"), (pstr "adir/k", pstr "d/adir/k")] ∧
    (cmd_mv [(pstr "d", FType.directory), (pstr "adir", FType.directory),
        (pstr "adir/k", FType.regular), (pstr "x/f", FType.regular)]
      [pstr "adir/k"] false false true [pstr "adir", pstr "x/f"] (pstr "d") true 6).outcome
      = Outcome.exit0 := by
  decide

/-- C4 counterexample: `git mv -k u v` where `u` exists but is untracked
(so the only pair is rejected and the pair count collapses to zero) and
`v` does not exist.  C4 says the invocation then exits non-zero; the code
does nothing special when `--count` reaches zero and returns 0: the run
exits 0, performs no renames and reports nothing. -/
theorem mv_ignore_errors_all_rejected_exits_zero :
    (cmd_mv [(pstr "u", FType.regular)] [] false false true
        [pstr "u"] (pstr "v") true 4).outcome = Outcome.exit0 ∧
    (cmd_mv [(pstr "u", FType.regular)] [] false false true
        [pstr "u"] (pstr "v") true 4).renameCalls = [] ∧
    (cmd_mv [(pstr "u", FType.regular)] [] false false true
        [pstr "u"] (pstr "v") true 4).report = emptyReport ∧
    (cmd_mv [(pstr "u", FType.regular)] [] false false true
        [pstr "u"] (pstr "v") true 4).persisted = false := by
  decide

theorem execLoop_cons (so ign : Bool) (cache ow : List Path) (src dst : Path) (m : Mode)
    (rest : List (Path × Path × Mode)) (fs : FS) (calls : List (Path × Path)) (rep : Report) :
    execLoop so ign cache ow ((src, dst, m) :: rest) fs calls rep =
      if so = false ∧ m ≠ Mode.INDEX then
        match renameFS fs src dst with
        | some fs2 =>
            execLoop so ign cache ow rest fs2 (calls ++ [(src, dst)])
              (classifyPair cache ow src dst m rep)
        | none =>
          if ign then
            execLoop so ign cache ow rest fs (calls ++ [(src, dst)])
              (classifyPair cache ow src dst m rep)
          else ⟨some (src, dst), fs, calls ++ [(src, dst)], rep⟩
      else
        execLoop so ign cache ow rest fs calls (classifyPair cache ow src dst m rep) := rfl

theorem execLoop_dry (ign : Bool) (cache ow : List Path) :
    ∀ (plan : List (Path × Path × Mode)) (fs : FS) (calls : List (Path × Path)) (rep : Report),
      (execLoop true ign cache ow plan fs calls rep).aborted = none ∧
      (execLoop true ign cache ow plan fs calls rep).fs = fs ∧
      (execLoop true ign cache ow plan fs calls rep).renameCalls = calls := by
  intro plan
  induction plan with
  | nil =>
    intro fs calls rep
    exact ⟨rfl, rfl, rfl⟩
  | cons item rest ih =>
    intro fs calls rep
    obtain ⟨src, dst, m⟩ := item
    rw [execLoop_cons, if_neg (by simp : ¬(true = false ∧ m ≠ Mode.INDEX))]
    exact ih fs calls (classifyPair cache ow src dst m rep)

theorem execLoop_rep_eq (ign : Bool) (cache ow : List Path) :
    ∀ (plan : List (Path × Path × Mode)) (fs1 : FS) (calls1 : List (Path × Path))
      (fs2 : FS) (calls2 : List (Path × Path)) (rep : Report),
      (execLoop false ign cache ow plan fs1 calls1 rep).aborted = none →
      (execLoop true ign cache ow plan fs2 calls2 rep).rep
        = (execLoop false ign cache ow plan fs1 calls1 rep).rep := by
  intro plan
  induction plan with
  | nil =>
    intro fs1 c1 fs2 c2 rep _
    rfl
  | cons item rest ih =>
    intro fs1 c1 fs2 c2 rep hab
    obtain ⟨src, dst, m⟩ := item
    rw [execLoop_cons false ign cache ow src dst m rest fs1 c1 rep] at hab
    rw [execLoop_cons true ign cache ow src dst m rest fs2 c2 rep,
      execLoop_cons false ign cache ow src dst m rest fs1 c1 rep,
      if_neg (by simp : ¬(true = false ∧ m ≠ Mode.INDEX))]
    by_cases hc : false = false ∧ m ≠ Mode.INDEX
    · rw [if_pos hc] at hab ⊢
      cases hr : renameFS fs1 src dst with
      | some fs3 =>
        rw [hr] at hab
        exact ih fs3 (c1 ++ [(src, dst)]) fs2 c2 _ hab
      | none =>
        rw [hr] at hab
        cases ign with
        | true => exact ih fs1 (c1 ++ [(src, dst)]) fs2 c2 _ hab
        | false => exact Option.noConfusion hab
    · rw [if_neg hc] at hab ⊢
      exact ih fs1 c1 fs2 c2 _ hab

theorem execLoop_ign_no_abort (so : Bool) (cache ow : List Path) :
    ∀ (plan : List (Path × Path × Mode)) (fs : FS) (calls : List (Path × Path)) (rep : Report),
      (execLoop so true cache ow plan fs calls rep).aborted = none := by
  intro plan
  induction plan with
  | nil =>
    intro fs calls rep
    rfl
  | cons item rest ih =>
    intro fs calls rep
    obtain ⟨src, dst, m⟩ := item
    rw [execLoop_cons]
    by_cases hc : so = false ∧ m ≠ Mode.INDEX
    · rw [if_pos hc]
      cases hr : renameFS fs src dst with
      | some fs3 =>
        exact ih fs3 (calls ++ [(src, dst)]) (classifyPair cache ow src dst m rep)
      | none =>
        exact ih fs (calls ++ [(src, dst)]) (classifyPair cache ow src dst m rep)
    · rw [if_neg hc]
      exact ih fs calls (classifyPair cache ow src dst m rep)

theorem validLoop_ign_no_vdied (fs : FS) (cache : List Path) (force : Bool) :
    ∀ (fuel i : Nat) (s : VState) (r : Reason) (a b : Path),
      validLoop fs cache force true fuel i s ≠ VResult.vdied r a b := by
  intro fuel
  induction fuel with
  | zero =>
    intro i s r a b h
    exact VResult.noConfusion h
  | succ n ih =>
    intro i s r a b h
    simp only [validLoop] at h
    split at h
    · exact VResult.noConfusion h
    · split at h
      · exact VResult.noConfusion h
      · split at h
        · exact ih _ _ _ _ _ h
        · rw [if_pos trivial] at h
          exact ih _ _ _ _ _ h

theorem mvFinish_report (so : Bool) (fs0 : FS) (cache0 : List Path) (pOk : Bool) (e : ExecOut) :
    (mvFinish so fs0 cache0 pOk e).report = e.rep := by
  unfold mvFinish
  repeat' split
  all_goals rfl

theorem mvFinish_exit0_aborted (so : Bool) (fs0 : FS) (cache0 : List Path) (pOk : Bool)
    (e : ExecOut) :
    (mvFinish so fs0 cache0 pOk e).outcome = Outcome.exit0 → e.aborted = none := by
  unfold mvFinish
  split
  · intro h
    simp at h
  · rename_i heq
    intro _
    exact heq

theorem mvFinish_outcome_ne_validation (so : Bool) (fs0 : FS) (cache0 : List Path) (pOk : Bool)
    (e : ExecOut) (r : Reason) (a b : Path) :
    (mvFinish so fs0 cache0 pOk e).outcome ≠ Outcome.died (DieKind.validation r a b) := by
  unfold mvFinish
  repeat' split
  all_goals simp

theorem mvFinish_pair_failure_false (so : Bool) (fs0 : FS) (cache0 : List Path) (pOk : Bool)
    (e : ExecOut) (hab : e.aborted = none) :
    diedOnPairFailure (mvFinish so fs0 cache0 pOk e).outcome = false := by
  unfold mvFinish
  split
  · rename_i a b heq
    rw [hab] at heq
    exact Option.noConfusion heq
  · repeat' split
    all_goals rfl

theorem mvFinish_dry (fs0 : FS) (cache0 : List Path) (pOk : Bool) (e : ExecOut)
    (hab : e.aborted = none) :
    mvFinish true fs0 cache0 pOk e
      = ⟨Outcome.exit0, e.fs, cache0, e.renameCalls, e.rep, false⟩ := by
  simp [mvFinish, hab]

theorem mvValidated_validation_frame (so ig : Bool) (fs0 : FS) (cache0 : List Path)
    (pOk : Bool) (vres : VResult) (r : Reason) (a b : Path)
    (h : (mvValidated so ig fs0 cache0 pOk vres).outcome = Outcome.died (DieKind.validation r a b)) :
    (mvValidated so ig fs0 cache0 pOk vres).fs = fs0 ∧
    (mvValidated so ig fs0 cache0 pOk vres).cache = cache0 ∧
    (mvValidated so ig fs0 cache0 pOk vres).renameCalls = [] ∧
    (mvValidated so ig fs0 cache0 pOk vres).persisted = false := by
  cases vres with
  | fuelOut => simp [mvValidated] at h
  | huh src => simp [mvValidated] at h
  | vdied r2 a2 b2 => exact ⟨rfl, rfl, rfl, rfl⟩
  | ok s =>
    exact absurd h (mvFinish_outcome_ne_validation so fs0 cache0 pOk
      (execLoop so ig cache0 s.overwritten (planOf s) fs0 [] emptyReport) r a b)

theorem mvWithDest_validation_frame (so force ig : Bool) (fs0 : FS) (cache0 : List Path)
    (pOk : Bool) (fuel : Nat) (srcs : List Path) (stDest : Option FType)
    (dres : Option (List Path)) (r : Reason) (a b : Path)
    (h : (mvWithDest so force ig fs0 cache0 pOk fuel srcs stDest dres).outcome
      = Outcome.died (DieKind.validation r a b)) :
    (mvWithDest so force ig fs0 cache0 pOk fuel srcs stDest dres).fs = fs0 ∧
    (mvWithDest so force ig fs0 cache0 pOk fuel srcs stDest dres).cache = cache0 ∧
    (mvWithDest so force ig fs0 cache0 pOk fuel srcs stDest dres).renameCalls = [] ∧
    (mvWithDest so force ig fs0 cache0 pOk fuel srcs stDest dres).persisted = false := by
  cases dres with
  | none => simp [mvWithDest] at h
  | some d =>
    simp only [mvWithDest] at h ⊢
    exact mvValidated_validation_frame _ _ _ _ _ _ _ _ _ h

theorem mvWithDest_ign_pair_false (so force : Bool) (fs0 : FS) (cache0 : List Path)
    (pOk : Bool) (fuel : Nat) (srcs : List Path) (stDest : Option FType)
    (dres : Option (List Path)) :
    diedOnPairFailure
      (mvWithDest so force true fs0 cache0 pOk fuel srcs stDest dres).outcome = false := by
  cases dres with
  | none => rfl
  | some d =>
    simp only [mvWithDest]
    cases hv : validLoop fs0 cache0 force true fuel 0
        ⟨srcs, d, List.replicate srcs.length Mode.BOTH, srcs.length, stDest, [], []⟩ with
    | fuelOut => rfl
    | huh src => rfl
    | vdied r a b => exact absurd hv (validLoop_ign_no_vdied fs0 cache0 force fuel 0 _ r a b)
    | ok s =>
      exact mvFinish_pair_failure_false so fs0 cache0 pOk _
        (execLoop_ign_no_abort so cache0 s.overwritten (planOf s) fs0 [] emptyReport)

theorem mvWithDest_dry_frame (force ig : Bool) (fs0 : FS) (cache0 : List Path)
    (pOk : Bool) (fuel : Nat) (srcs : List Path) (stDest : Option FType)
    (dres : Option (List Path)) :
    (mvWithDest true force ig fs0 cache0 pOk fuel srcs stDest dres).fs = fs0 ∧
    (mvWithDest true force ig fs0 cache0 pOk fuel srcs stDest dres).cache = cache0 ∧
    (mvWithDest true force ig fs0 cache0 pOk fuel srcs stDest dres).renameCalls = [] ∧
    (mvWithDest true force ig fs0 cache0 pOk fuel srcs stDest dres).persisted = false := by
  cases dres with
  | none => exact ⟨rfl, rfl, rfl, rfl⟩
  | some d =>
    simp only [mvWithDest]
    cases hv : validLoop fs0 cache0 force ig fuel 0
        ⟨srcs, d, List.replicate srcs.length Mode.BOTH, srcs.length, stDest, [], []⟩ with
    | fuelOut => exact ⟨rfl, rfl, rfl, rfl⟩
    | huh src => exact ⟨rfl, rfl, rfl, rfl⟩
    | vdied r a b => exact ⟨rfl, rfl, rfl, rfl⟩
    | ok s =>
      have hd := execLoop_dry ig cache0 s.overwritten (planOf s) fs0 [] emptyReport
      have hfin := mvFinish_dry fs0 cache0 pOk
        (execLoop true ig cache0 s.overwritten (planOf s) fs0 [] emptyReport) hd.1
      exact ⟨(congrArg MvRun.fs hfin).trans hd.2.1, congrArg MvRun.cache hfin,
        (congrArg MvRun.renameCalls hfin).trans hd.2.2, congrArg MvRun.persisted hfin⟩

theorem mvWithDest_dry_report (force ig : Bool) (fs0 : FS) (cache0 : List Path)
    (pOk : Bool) (fuel : Nat) (srcs : List Path) (stDest : Option FType)
    (dres : Option (List Path))
    (h : (mvWithDest false force ig fs0 cache0 pOk fuel srcs stDest dres).outcome
      = Outcome.exit0) :
    (mvWithDest true force ig fs0 cache0 pOk fuel srcs stDest dres).report
      = (mvWithDest false force ig fs0 cache0 pOk fuel srcs stDest dres).report := by
  cases dres with
  | none => rfl
  | some d =>
    simp only [mvWithDest] at h ⊢
    cases hv : validLoop fs0 cache0 force ig fuel 0
        ⟨srcs, d, List.replicate srcs.length Mode.BOTH, srcs.length, stDest, [], []⟩ with
    | fuelOut =>
      rw [hv] at h
      simp [mvValidated] at h
    | huh src =>
      rw [hv] at h
      simp [mvValidated] at h
    | vdied r a b =>
      rw [hv] at h
      simp [mvValidated] at h
    | ok s =>
      rw [hv] at h
      simp only [mvValidated] at h ⊢
      have hab := mvFinish_exit0_aborted false fs0 cache0 pOk _ h
      rw [mvFinish_report, mvFinish_report]
      exact execLoop_rep_eq ig cache0 s.overwritten (planOf s) fs0 [] fs0 [] emptyReport hab

/-- C7 (confirmed): when ignore-errors is off, a validation rejection
aborts the whole invocation with the filesystem and the index exactly as
they were at the start: no rename call was made and nothing was
persisted (the checking loop only reads filesystem and index state). -/
theorem mv_strict_mode_validation_abort_preserves_state
    (fs0 : FS) (cache0 : List Path) (so force : Bool) (srcs : List Path)
    (destArg : Path) (persistOk : Bool) (fuel : Nat) (r : Reason) (a b : Path)
    (hrun : (cmd_mv fs0 cache0 so force false srcs destArg persistOk fuel).outcome
      = Outcome.died (DieKind.validation r a b)) :
    (cmd_mv fs0 cache0 so force false srcs destArg persistOk fuel).fs = fs0 ∧
    (cmd_mv fs0 cache0 so force false srcs destArg persistOk fuel).cache = cache0 ∧
    (cmd_mv fs0 cache0 so force false srcs destArg persistOk fuel).renameCalls = [] ∧
    (cmd_mv fs0 cache0 so force false srcs destArg persistOk fuel).persisted = false := by
  revert hrun
  simp only [cmd_mv]
  by_cases hcnt : srcs.length < 1
  · rw [if_pos hcnt]
    intro h
    simp at h
  · rw [if_neg hcnt]
    exact mvWithDest_validation_frame so force false fs0 cache0 persistOk fuel srcs _ _ r a b

/-- C4 (amended): under ignore-errors mode, per-pair validation and
rename failures never produce a non-zero exit — in particular, when every
pair is rejected the invocation still returns 0 (see the counterexample
theorem); a non-zero exit can only come from the final persist failing or
from one of the internal-invariant dies. -/
theorem mv_ignore_errors_never_dies_on_pair_failures
    (fs0 : FS) (cache0 : List Path) (so force : Bool) (srcs : List Path)
    (destArg : Path) (persistOk : Bool) (fuel : Nat) :
    diedOnPairFailure
      (cmd_mv fs0 cache0 so force true srcs destArg persistOk fuel).outcome = false := by
  simp only [cmd_mv]
  by_cases hcnt : srcs.length < 1
  · rw [if_pos hcnt]
    rfl
  · rw [if_neg hcnt]
    exact mvWithDest_ign_pair_false so force fs0 cache0 persistOk fuel srcs _ _

/-- C6 (confirmed): dry-run (`-n`) mutates neither the filesystem nor the
index for any input and any combination of the other flags — no rename
call is made and nothing is persisted — and whenever the corresponding
real run completes successfully, the dry run reports exactly the
changed/added/deleted classification the real run computes. -/
theorem mv_dry_run_no_mutation_and_same_report
    (fs0 : FS) (cache0 : List Path) (force ign : Bool) (srcs : List Path)
    (destArg : Path) (persistOk : Bool) (fuel : Nat) :
    ((cmd_mv fs0 cache0 true force ign srcs destArg persistOk fuel).fs = fs0 ∧
      (cmd_mv fs0 cache0 true force ign srcs destArg persistOk fuel).cache = cache0 ∧
      (cmd_mv fs0 cache0 true force ign srcs destArg persistOk fuel).renameCalls = [] ∧
      (cmd_mv fs0 cache0 true force ign srcs destArg persistOk fuel).persisted = false) ∧
    ((cmd_mv fs0 cache0 false force ign srcs destArg persistOk fuel).outcome = Outcome.exit0 →
      (cmd_mv fs0 cache0 true force ign srcs destArg persistOk fuel).report
        = (cmd_mv fs0 cache0 false force ign srcs destArg persistOk fuel).report) := by
  constructor
  · simp only [cmd_mv]
    by_cases hcnt : srcs.length < 1
    · rw [if_pos hcnt]
      exact ⟨rfl, rfl, rfl, rfl⟩
    · rw [if_neg hcnt]
      exact mvWithDest_dry_frame force ign fs0 cache0 persistOk fuel srcs _ _
  · intro hreal
    simp only [cmd_mv] at hreal ⊢
    by_cases hcnt : srcs.length < 1
    · rw [if_pos hcnt] at hreal
      simp at hreal
    · rw [if_neg hcnt] at hreal
      simp only [if_neg hcnt]
      exact mvWithDest_dry_report force ign fs0 cache0 persistOk fuel srcs _ _ hreal

theorem mv_strict_abort_witness :
    (cmd_mv [(pstr "u", FType.regular)] [] false false false [pstr "u"] (pstr "v") true 4).outcome
      = Outcome.died (DieKind.validation Reason.not_tracked (pstr "u") (pstr "v")) ∧
    ((cmd_mv [(pstr "u", FType.regular)] [] false false false [pstr "u"] (pstr "v") true 4).fs
        = [(pstr "u", FType.regular)] ∧
      (cmd_mv [(pstr "u", FType.regular)] [] false false false [pstr "u"] (pstr "v") true 4).cache
        = [] ∧
      (cmd_mv [(pstr "u", FType.regular)] [] false false false [pstr "u"] (pstr "v") true 4).renameCalls
        = [] ∧
      (cmd_mv [(pstr "u", FType.regular)] [] false false false [pstr "u"] (pstr "v") true 4).persisted
        = false) :=
  ⟨by decide,
    mv_strict_mode_validation_abort_preserves_state [(pstr "u", FType.regular)] [] false false
      [pstr "u"] (pstr "v") true 4 Reason.not_tracked (pstr "u") (pstr "v") (by decide)⟩

theorem mv_dry_run_witness :
    (cmd_mv [(pstr "a", FType.directory), (pstr "a/x", FType.regular), (pstr "a/y", FType.regular)]
        [pstr "a/x", pstr "a/y"] false false false [pstr "a"] (pstr "b") true 5).outcome
      = Outcome.exit0 ∧
    (cmd_mv [(pstr "a", FType.directory), (pstr "a/x", FType.regular), (pstr "a/y", FType.regular)]
        [pstr "a/x", pstr "a/y"] true false false [pstr "a"] (pstr "b") true 5).report
      = (cmd_mv [(pstr "a", FType.directory), (pstr "a/x", FType.regular), (pstr "a/y", FType.regular)]
        [pstr "a/x", pstr "a/y"] false false false [pstr "a"] (pstr "b") true 5).report :=
  ⟨by decide,
    (mv_dry_run_no_mutation_and_same_report
      [(pstr "a", FType.directory), (pstr "a/x", FType.regular), (pstr "a/y", FType.regular)]
      [pstr "a/x", pstr "a/y"] false false [pstr "a"] (pstr "b") true 5).2 (by decide)⟩

theorem validLoop_succ (fs : FS) (cache : List Path) (force ign : Bool) (fuel i : Nat)
    (s : VState) :
    validLoop fs cache force ign (fuel + 1) i s =
      if s.count ≤ i then VResult.ok s
      else
        let src := s.source.getD i []
        let dst := s.destination.getD i []
        let c := checkPair fs cache force s.st s.overwritten s.src_for_dst src dst
        if c.fatal then VResult.huh src
        else
          let modes1 := if c.modeSet then s.modes.set i Mode.WORKING_DIRECTORY else s.modes
          let k := c.appends.length
          let s1 : VState :=
            { source := s.source ++ c.appends.map Prod.fst,
              destination := s.destination ++ c.appends.map Prod.snd,
              modes := overwriteFrom modes1 s.count k,
              count := s.count + k,
              st := c.st,
              overwritten := c.overwritten,
              src_for_dst := c.src_for_dst }
          match c.bad with
          | none => validLoop fs cache force ign fuel (i + 1) s1
          | some r =>
            if ign then
              validLoop fs cache force ign fuel (i + 1)
                { s1 with
                  source := s1.source.eraseIdx i,
                  destination := s1.destination.eraseIdx i,
                  count := s1.count - 1 }
            else VResult.vdied r src dst := rfl

theorem addSlash_take (p : Path) : (addSlash p).take p.length = p := by
  unfold addSlash
  by_cases h : p.getLast? = some '/'
  · rw [if_pos h]
    exact List.take_length p
  · rw [if_neg h]
    exact List.take_left p ['/']

theorem pathJoin_addSlash (b x : Path) : pathJoin (addSlash b) b.length x = b ++ x := by
  unfold pathJoin
  rw [addSlash_take]

theorem overwriteFrom_zero (l : List Mode) (c : Nat) : overwriteFrom l c 0 = l := by
  unfold overwriteFrom
  simp

theorem getD_length_self {α : Type} (d : α) : ∀ l : List α, l.getD l.length d = d := by
  intro l
  induction l with
  | nil => rfl
  | cons a l ih => simp

theorem dirMatch_structure {a e : Path} (h : dirMatch a e = true) :
    ∃ t, e = a ++ '/' :: t := by
  unfold dirMatch at h
  rw [Bool.and_eq_true] at h
  obtain ⟨h1, h2⟩ := h
  rcases isPrefixOf_iff_exists.1 h1 with ⟨t, rfl⟩
  cases t with
  | nil =>
    exfalso
    rw [List.append_nil, getD_length_self] at h2
    exact absurd (beq_iff_eq.1 h2) (by decide)
  | cons c t2 =>
    rw [getD_append_len] at h2
    have hc := beq_iff_eq.1 h2
    subst hc
    exact ⟨t2, rfl⟩

theorem takeWhile_sublist_pred (p : Path → Bool) :
    ∀ l : List Path, List.Sublist (l.takeWhile p) l := by
  intro l
  induction l with
  | nil => exact List.Sublist.refl _
  | cons a l ih =>
    simp only [List.takeWhile]
    cases p a with
    | true => exact List.Sublist.cons₂ a ih
    | false => exact List.nil_sublist _

theorem childFold_cons (g : Path → Path) (e : Path) (ks : List Path) (rep : Report) :
    childFold g (e :: ks) rep
      = childFold g ks ⟨rep.changed, path_list_insert (g e) rep.added,
          path_list_insert e rep.deleted⟩ := rfl

theorem childFold_changed (g : Path → Path) :
    ∀ (ks : List Path) (rep : Report), (childFold g ks rep).changed = rep.changed := by
  intro ks
  induction ks with
  | nil => intro rep; rfl
  | cons e ks ih =>
    intro rep
    rw [childFold_cons, ih]

theorem childFold_added_mem (g : Path → Path) :
    ∀ (ks : List Path) (rep : Report) (q : Path),
      q ∈ (childFold g ks rep).added ↔ q ∈ rep.added ∨ ∃ e ∈ ks, q = g e := by
  intro ks
  induction ks with
  | nil =>
    intro rep q
    simp [childFold]
  | cons e ks ih =>
    intro rep q
    rw [childFold_cons, ih]
    simp only [mem_path_list_insert, List.mem_cons]
    constructor
    · rintro (⟨h1 | h2⟩ | ⟨x, hx, hq⟩)
      · exact Or.inr ⟨e, Or.inl rfl, h1⟩
      · exact Or.inl h2
      · exact Or.inr ⟨x, Or.inr hx, hq⟩
    · rintro (h1 | ⟨x, hx | hx, hq⟩)
      · exact Or.inl (Or.inr h1)
      · exact Or.inl (Or.inl (hx ▸ hq))
      · exact Or.inr ⟨x, hx, hq⟩

theorem childFold_deleted_mem (g : Path → Path) :
    ∀ (ks : List Path) (rep : Report) (q : Path),
      q ∈ (childFold g ks rep).deleted ↔ q ∈ rep.deleted ∨ q ∈ ks := by
  intro ks
  induction ks with
  | nil =>
    intro rep q
    simp [childFold]
  | cons e ks ih =>
    intro rep q
    rw [childFold_cons, ih]
    simp only [mem_path_list_insert, List.mem_cons]
    tauto

theorem childFold_added_length (g : Path → Path) :
    ∀ (ks : List Path) (rep : Report),
      ks.Pairwise (fun x y => g x ≠ g y) → (∀ e ∈ ks, g e ∉ rep.added) →
      (childFold g ks rep).added.length = rep.added.length + ks.length := by
  intro ks
  induction ks with
  | nil =>
    intro rep _ _
    rfl
  | cons e ks ih =>
    intro rep hpw hni
    have hpw2 := (List.pairwise_cons.1 hpw).2
    have hhd := (List.pairwise_cons.1 hpw).1
    rw [childFold_cons, ih _ hpw2]
    · have hlen := length_path_list_insert (hni e (List.mem_cons_self e ks))
      simp only [hlen, List.length_cons]
      omega
    · intro x hx hmem
      rcases mem_path_list_insert.1 hmem with h1 | h2
      · exact hhd x hx h1.symm
      · exact hni x (List.mem_cons_of_mem e hx) h2

theorem childFold_deleted_length (g : Path → Path) :
    ∀ (ks : List Path) (rep : Report),
      ks.Nodup → (∀ e ∈ ks, e ∉ rep.deleted) →
      (childFold g ks rep).deleted.length = rep.deleted.length + ks.length := by
  intro ks
  induction ks with
  | nil =>
    intro rep _ _
    rfl
  | cons e ks ih =>
    intro rep hnd hni
    have hnd2 := (List.pairwise_cons.1 hnd).2
    have hhd := (List.pairwise_cons.1 hnd).1
    rw [childFold_cons, ih _ hnd2]
    · have hlen := length_path_list_insert (hni e (List.mem_cons_self e ks))
      simp only [hlen, List.length_cons]
      omega
    · intro x hx hmem
      rcases mem_path_list_insert.1 hmem with h1 | h2
      · exact hhd x hx h1.symm
      · exact hni x (List.mem_cons_of_mem e hx) h2

theorem mem_foldl_pli {q : Path} :
    ∀ (l : List Path) (c0 : List Path),
      q ∈ l.foldl (fun c p => path_list_insert p c) c0 → q ∈ c0 ∨ q ∈ l := by
  intro l
  induction l with
  | nil =>
    intro c0 h
    exact Or.inl h
  | cons p l ih =>
    intro c0 h
    rcases ih _ h with h1 | h2
    · rcases mem_path_list_insert.1 h1 with h3 | h4
      · exact Or.inr (h3 ▸ List.mem_cons_self p l)
      · exact Or.inl h4
    · exact Or.inr (List.mem_cons_of_mem p h2)

theorem mem_foldl_erase {q : Path} :
    ∀ (l : List Path) (c0 : List Path),
      q ∈ l.foldl (fun c p => c.erase p) c0 → q ∈ c0 := by
  intro l
  induction l with
  | nil =>
    intro c0 h
    exact h
  | cons p l ih =>
    intro c0 h
    exact List.mem_of_mem_erase (ih _ h)

theorem zip3_cons (x y : Path) (z : Mode) (xs ys : List Path) (zs : List Mode) :
    zip3 (x :: xs) (y :: ys) (z :: zs) = (x, y, z) :: zip3 xs ys zs := rfl

theorem zip3_range_getD :
    ∀ (xs ys : List Path) (zs : List Mode),
      xs.length = ys.length → xs.length = zs.length →
      (List.range xs.length).map
        (fun j => (xs.getD j [], ys.getD j [], zs.getD j Mode.BOTH)) = zip3 xs ys zs := by
  intro xs
  induction xs with
  | nil =>
    intro ys zs h1 h2
    rfl
  | cons x xs ih =>
    intro ys zs h1 h2
    cases ys with
    | nil => simp at h1
    | cons y ys =>
      cases zs with
      | nil => simp at h2
      | cons z zs =>
        simp only [List.length_cons] at h1 h2
        rw [List.length_cons, List.range_succ_eq_map, List.map_cons, List.map_map, zip3_cons]
        have hhd : ((x :: xs).getD 0 [], (y :: ys).getD 0 [], (z :: zs).getD 0 Mode.BOTH)
            = ((x, y, z) : Path × Path × Mode) := by simp
        have htl : List.map
            ((fun j => ((x :: xs).getD j [], (y :: ys).getD j [], (z :: zs).getD j Mode.BOTH))
              ∘ Nat.succ) (List.range xs.length) = zip3 xs ys zs := by
          rw [← ih ys zs (by omega) (by omega)]
          apply List.map_congr_left
          intro j _
          simp [Function.comp, Nat.succ_eq_add_one, List.getD_cons_succ]
        rw [hhd, htl]

theorem zip3_kids (g : Path → Path) :
    ∀ ks : List Path,
      zip3 ks (ks.map g) (List.replicate ks.length Mode.INDEX)
        = ks.map (fun e => (e, g e, Mode.INDEX)) := by
  intro ks
  induction ks with
  | nil => rfl
  | cons e ks ih =>
    simp only [List.map_cons, List.length_cons, List.replicate_succ, zip3_cons, ih]

theorem planOf_kidState (a b : Path) (kids : List Path) (st0 : Option FType)
    (sfd : List Path) :
    planOf (kidState a b kids st0 sfd)
      = (a, b, Mode.WORKING_DIRECTORY)
        :: kids.map (fun e => (e, b ++ e.drop a.length, Mode.INDEX)) := by
  simp only [planOf, kidState]
  rw [show (1 : Nat) + kids.length = (a :: kids).length by simp [Nat.add_comm]]
  rw [zip3_range_getD (a :: kids) (b :: kids.map (fun e => b ++ e.drop a.length))
    (Mode.WORKING_DIRECTORY :: List.replicate kids.length Mode.INDEX) (by simp) (by simp)]
  rw [zip3_cons, zip3_kids]

theorem c5_checkDir (fs0 : FS) (cache0 : List Path) (force : Bool) (a b : Path)
    (kids : List Path)
    (hafs : lstat fs0 a = some FType.directory)
    (hbfs : lstat fs0 b = none)
    (hneg : cache_name_pos cache0 a < 0)
    (hkids : kids = (cache0.drop (-1 - cache_name_pos cache0 a).toNat).takeWhile
      (fun e => dirMatch a e))
    (hk1 : 1 ≤ kids.length) :
    checkPair fs0 cache0 force none [] [] a b
      = ⟨none, false, some FType.directory, true,
          kids.map (fun e => (e, b ++ e.drop a.length)), [], []⟩ := by
  have hnle : ¬(0 ≤ cache_name_pos cache0 a) := by omega
  have hlen : ¬(kids.length < 1) := by omega
  simp [checkPair, hafs, hbfs, isDirStat, hnle, ← hkids, hlen, pathJoin_addSlash]

theorem c5_checkKid (fs0 : FS) (cache0 : List Path) (force : Bool) (a b e : Path)
    (st0 : Option FType) (sfd : List Path)
    (hefs : lstat fs0 e = some FType.regular)
    (hedst : lstat fs0 (b ++ e.drop a.length) = none)
    (heself : selfCond e (b ++ e.drop a.length) = false)
    (hepos : 0 ≤ cache_name_pos cache0 e)
    (hesfd : (b ++ e.drop a.length) ∉ sfd) :
    checkPair fs0 cache0 force st0 [] sfd e (b ++ e.drop a.length)
      = ⟨none, false, some FType.regular, false, [], [],
          path_list_insert (b ++ e.drop a.length) sfd⟩ := by
  have hnl : ¬(cache_name_pos cache0 e < 0) := by omega
  simp [checkPair, hefs, hedst, heself, hnl, hesfd, isDirStat]

theorem c5_kidLoop (fs0 : FS) (cache0 : List Path) (force ign : Bool) (a b : Path)
    (kids : List Path)
    (hsort : CacheSorted cache0)
    (hkc : ∀ e ∈ kids, e ∈ cache0)
    (hkfs : ∀ e ∈ kids, lstat fs0 e = some FType.regular)
    (hkdst : ∀ e ∈ kids, lstat fs0 (b ++ e.drop a.length) = none)
    (hkself : ∀ e ∈ kids, selfCond e (b ++ e.drop a.length) = false)
    (hinj : ∀ e1 ∈ kids, ∀ e2 ∈ kids,
      b ++ e1.drop a.length = b ++ e2.drop a.length → e1 = e2)
    (hnd : kids.Nodup) :
    ∀ (suf pre : List Path) (st0 : Option FType) (sfd : List Path) (fuel : Nat),
      kids = pre ++ suf →
      (∀ e ∈ suf, (b ++ e.drop a.length) ∉ sfd) →
      suf.length + 1 ≤ fuel →
      ∃ stF sfdF,
        validLoop fs0 cache0 force ign fuel (1 + pre.length) (kidState a b kids st0 sfd)
          = VResult.ok (kidState a b kids stF sfdF) := by
  intro suf
  induction suf with
  | nil =>
    intro pre st0 sfd fuel heq hdisj hfuel
    obtain ⟨f, rfl⟩ : ∃ f, fuel = f + 1 := ⟨fuel - 1, by omega⟩
    refine ⟨st0, sfd, ?_⟩
    have hle : (kidState a b kids st0 sfd).count ≤ 1 + pre.length := by
      have hkp : kids = pre := by simpa using heq
      simp [kidState, hkp]
    rw [validLoop_succ, if_pos hle]
  | cons e rest ih =>
    intro pre st0 sfd fuel heq hdisj hfuel
    obtain ⟨f, rfl⟩ : ∃ f, fuel = f + 1 := ⟨fuel - 1, by omega⟩
    have hemem : e ∈ kids := by
      rw [heq]
      simp
    have hlt : ¬(1 + kids.length ≤ 1 + pre.length) := by
      rw [heq]
      simp only [List.length_append, List.length_cons]
      omega
    have hsrc : (a :: kids).getD (1 + pre.length) [] = e := by
      rw [Nat.add_comm, List.getD_cons_succ, heq]
      exact getD_append_len [] e pre rest
    have hdst : (b :: kids.map (fun x => b ++ x.drop a.length)).getD (1 + pre.length) []
        = b ++ e.drop a.length := by
      rw [Nat.add_comm, List.getD_cons_succ, heq, List.map_append, List.map_cons,
        ← List.length_map pre (fun x => b ++ x.drop a.length)]
      exact getD_append_len [] _ _ _
    have hck := c5_checkKid fs0 cache0 force a b e st0 sfd
      (hkfs e hemem) (hkdst e hemem) (hkself e hemem)
      ((cache_name_pos_nonneg_iff hsort e).2 (hkc e hemem))
      (hdisj e (List.mem_cons_self e rest))
    have hrest : (e :: rest).Nodup := hnd.sublist (by rw [heq]; exact (List.sublist_append_right pre (e :: rest)))
    have hdisj2 : ∀ x ∈ rest,
        (b ++ x.drop a.length) ∉ path_list_insert (b ++ e.drop a.length) sfd := by
      intro x hx hmem2
      rcases mem_path_list_insert.1 hmem2 with h1 | h2
      · have hxk : x ∈ kids := by
          rw [heq]
          simp [hx]
        have hxe : x = e := hinj x hxk e hemem h1
        rw [hxe] at hx
        exact (List.pairwise_cons.1 hrest).1 e hx rfl
      · exact hdisj x (List.mem_cons_of_mem e hx) h2
    obtain ⟨stF, sfdF, hih⟩ := ih (pre ++ [e]) (some FType.regular)
      (path_list_insert (b ++ e.drop a.length) sfd) f (by rw [heq]; simp) hdisj2
      (by simp only [List.length_cons] at hfuel; omega)
    refine ⟨stF, sfdF, ?_⟩
    rw [show (1 : Nat) + (pre ++ [e]).length = 1 + pre.length + 1 by
      simp only [List.length_append, List.length_cons, List.length_nil]
      omega] at hih
    rw [validLoop_succ]
    simp only [kidState, hlt, if_false, hsrc, hdst, hck, List.append_nil, List.map_nil,
      List.length_nil, overwriteFrom_zero, Nat.add_zero]
    exact hih

theorem c5_execKids (ign2 : Bool) (cache0 : List Path) (hsort : CacheSorted cache0)
    (a b : Path) :
    ∀ (ks : List Path) (fs : FS) (calls : List (Path × Path)) (rep : Report),
      (∀ e ∈ ks, e ∈ cache0) →
      execLoop false ign2 cache0 []
          (ks.map (fun e => (e, b ++ e.drop a.length, Mode.INDEX))) fs calls rep
        = ⟨none, fs, calls, childFold (fun e => b ++ e.drop a.length) ks rep⟩ := by
  intro ks
  induction ks with
  | nil =>
    intro fs calls rep _
    rfl
  | cons e ks ih =>
    intro fs calls rep hmem
    rw [List.map_cons, execLoop_cons, if_neg (by simp)]
    have hpos : 0 ≤ cache_name_pos cache0 e :=
      (cache_name_pos_nonneg_iff hsort e).2 (hmem e (List.mem_cons_self e ks))
    have hcp : classifyPair cache0 [] e (b ++ e.drop a.length) Mode.INDEX rep
        = ⟨rep.changed, path_list_insert (b ++ e.drop a.length) rep.added,
            path_list_insert e rep.deleted⟩ := by
      unfold classifyPair
      rw [if_neg (by simp), if_pos hpos]
      simp
    rw [hcp, childFold_cons]
    exact ih fs calls _ (fun x hx => hmem x (List.mem_cons_of_mem e hx))

theorem c5_overwriteFrom_one (k : Nat) :
    overwriteFrom [Mode.WORKING_DIRECTORY] 1 k
      = Mode.WORKING_DIRECTORY :: List.replicate k Mode.INDEX := by
  simp [overwriteFrom, List.drop_eq_nil_of_le, Nat.le_add_right]

theorem c5_firstStep (fs0 : FS) (cache0 : List Path) (force ign : Bool) (a b : Path)
    (kids : List Path) (fuel : Nat)
    (hafs : lstat fs0 a = some FType.directory)
    (hbfs : lstat fs0 b = none)
    (hneg : cache_name_pos cache0 a < 0)
    (hkids : kids = (cache0.drop (-1 - cache_name_pos cache0 a).toNat).takeWhile
      (fun e => dirMatch a e))
    (hk1 : 1 ≤ kids.length) :
    validLoop fs0 cache0 force ign (fuel + 1) 0
        ⟨[a], [b], List.replicate 1 Mode.BOTH, 1, none, [], []⟩
      = validLoop fs0 cache0 force ign fuel 1 (kidState a b kids (some FType.directory) []) := by
  have hck := c5_checkDir fs0 cache0 force a b kids hafs hbfs hneg hkids hk1
  rw [validLoop_succ]
  simp only [List.getD_cons_zero, hck]
  norm_num [kidState, c5_overwriteFrom_one, List.map_map, Function.comp_def]

theorem c5_execPlan (ign : Bool) (cache0 : List Path) (hsort : CacheSorted cache0)
    (fs0 : FS) (a b : Path) (kids : List Path)
    (hafs : lstat fs0 a = some FType.directory)
    (hkc : ∀ e ∈ kids, e ∈ cache0) :
    ∃ fs2, execLoop false ign cache0 []
        ((a, b, Mode.WORKING_DIRECTORY)
          :: kids.map (fun e => (e, b ++ e.drop a.length, Mode.INDEX))) fs0 [] emptyReport
      = ⟨none, fs2, [(a, b)], childFold (fun e => b ++ e.drop a.length) kids emptyReport⟩ := by
  rw [execLoop_cons, if_pos (by simp : false = false ∧ Mode.WORKING_DIRECTORY ≠ Mode.INDEX)]
  obtain ⟨fs2, hr⟩ : ∃ fs2, renameFS fs0 a b = some fs2 := by
    unfold renameFS
    rw [hafs]
    exact ⟨_, rfl⟩
  rw [hr]
  have hcp : classifyPair cache0 [] a b Mode.WORKING_DIRECTORY emptyReport = emptyReport := by
    unfold classifyPair
    rw [if_pos rfl]
  rw [hcp, List.nil_append]
  exact ⟨fs2, c5_execKids ign cache0 hsort a b kids fs2 [(a, b)] emptyReport hkc⟩

theorem mvFinish_real_exit0 (fs0 : FS) (cache0 : List Path) (e : ExecOut)
    (hab : e.aborted = none) (hch : e.rep.changed = []) (hadd : e.rep.added ≠ []) :
    (mvFinish false fs0 cache0 true e).outcome = Outcome.exit0 := by
  simp [mvFinish, hab, hch, refreshScan, hadd]

theorem mvFinish_real_components (fs0 : FS) (cache0 : List Path) (pOk : Bool) (e : ExecOut)
    (hab : e.aborted = none) (hch : e.rep.changed = []) :
    (mvFinish false fs0 cache0 pOk e).renameCalls = e.renameCalls ∧
    (mvFinish false fs0 cache0 pOk e).report = e.rep ∧
    (mvFinish false fs0 cache0 pOk e).cache
      = e.rep.deleted.foldl (fun c p => c.erase p)
          (e.rep.added.foldl (fun c p => path_list_insert p c) cache0) := by
  simp [mvFinish, hab, hch, refreshScan, apply_ite]

/-- C5 (confirmed): moving a tracked directory `a` (not itself an index
entry, statting as a directory, with at least one tracked entry beneath
it) to a fresh destination `b` (statting as nothing, untracked) performs
exactly one filesystem rename — of the directory itself — and updates the
index once per contained entry: each tracked child `e` under `a` is
deleted and `b ++ (e minus the directory part)` added, one addition and
one deletion per child and nothing in the changed set, and no index entry
is ever created for the destination path `b` itself.  The side conditions
ask that each child exists as a regular file, its translated destination
does not exist, and no child is its own destination — all automatic for a
real on-disk directory move to a fresh location. -/
theorem mv_directory_move_one_rename_and_per_child_index_updates
    (fs0 : FS) (cache0 : List Path) (force ignore_errors : Bool) (a b : Path)
    (kids : List Path) (fuel : Nat)
    (hsort : CacheSorted cache0)
    (hafs : lstat fs0 a = some FType.directory)
    (hbfs : lstat fs0 b = none)
    (hamem : a ∉ cache0)
    (hbc : b ∉ cache0)
    (hkids : kids = (cache0.drop (-1 - cache_name_pos cache0 a).toNat).takeWhile
      (fun e => dirMatch a e))
    (hk1 : 1 ≤ kids.length)
    (hkfs : ∀ e ∈ kids, lstat fs0 e = some FType.regular)
    (hkdst : ∀ e ∈ kids, lstat fs0 (b ++ e.drop a.length) = none)
    (hkself : ∀ e ∈ kids, selfCond e (b ++ e.drop a.length) = false)
    (hfuel : kids.length + 2 ≤ fuel) :
    (cmd_mv fs0 cache0 false force ignore_errors [a] b true fuel).renameCalls = [(a, b)] ∧
    (cmd_mv fs0 cache0 false force ignore_errors [a] b true fuel).report.changed = [] ∧
    (∀ q, q ∈ (cmd_mv fs0 cache0 false force ignore_errors [a] b true fuel).report.deleted
      ↔ q ∈ kids) ∧
    (∀ q, q ∈ (cmd_mv fs0 cache0 false force ignore_errors [a] b true fuel).report.added
      ↔ ∃ e ∈ kids, q = b ++ e.drop a.length) ∧
    (cmd_mv fs0 cache0 false force ignore_errors [a] b true fuel).report.added.length
      = kids.length ∧
    (cmd_mv fs0 cache0 false force ignore_errors [a] b true fuel).report.deleted.length
      = kids.length ∧
    (cmd_mv fs0 cache0 false force ignore_errors [a] b true fuel).outcome = Outcome.exit0 ∧
    b ∉ (cmd_mv fs0 cache0 false force ignore_errors [a] b true fuel).cache := by
  have hneg : cache_name_pos cache0 a < 0 := by
    by_contra h
    exact hamem ((cache_name_pos_nonneg_iff hsort a).1 (by omega))
  have hsub : List.Sublist kids cache0 := by
    rw [hkids]
    exact (takeWhile_sublist_pred _ _).trans (List.drop_sublist _ _)
  have hkc : ∀ e ∈ kids, e ∈ cache0 := fun e he => hsub.mem he
  have hknd : kids.Nodup := by
    refine List.Pairwise.imp_of_mem ?_ (hsort.sublist hsub)
    intro x y _ _ hxy hxyeq
    rw [hxyeq, pathLt_irrefl] at hxy
    exact Bool.noConfusion hxy
  have hdm : ∀ e ∈ kids, dirMatch a e = true := by
    intro e he
    rw [hkids] at he
    exact List.mem_takeWhile_imp he
  have hstruct : ∀ e ∈ kids, e = a ++ e.drop a.length := by
    intro e he
    obtain ⟨t, ht⟩ := dirMatch_structure (hdm e he)
    rw [ht, List.drop_left]
  have hdropne : ∀ e ∈ kids, b ≠ b ++ e.drop a.length := by
    intro e he
    obtain ⟨t, ht⟩ := dirMatch_structure (hdm e he)
    rw [ht, List.drop_left]
    simp
  have hinj : ∀ e1 ∈ kids, ∀ e2 ∈ kids,
      b ++ e1.drop a.length = b ++ e2.drop a.length → e1 = e2 := by
    intro e1 h1 e2 h2 heq
    have h3 := List.append_cancel_left heq
    rw [hstruct e1 h1, hstruct e2 h2, h3]
  obtain ⟨f, hf⟩ : ∃ f, fuel = f + 1 := ⟨fuel - 1, by omega⟩
  obtain ⟨stF, sfdF, hloop⟩ := c5_kidLoop fs0 cache0 force ignore_errors a b kids hsort hkc
    hkfs hkdst hkself hinj hknd kids [] (some FType.directory) [] f
    (List.nil_append kids).symm (fun e _ => List.not_mem_nil _) (by omega)
  simp only [List.length_nil, Nat.add_zero] at hloop
  have hv : validLoop fs0 cache0 force ignore_errors fuel 0
      ⟨[a], [b], List.replicate 1 Mode.BOTH, 1, none, [], []⟩
      = VResult.ok (kidState a b kids stF sfdF) := by
    rw [hf, c5_firstStep fs0 cache0 force ignore_errors a b kids f hafs hbfs hneg hkids hk1]
    exact hloop
  obtain ⟨fs2, hexec⟩ := c5_execPlan ignore_errors cache0 hsort fs0 a b kids hafs hkc
  have hrun : cmd_mv fs0 cache0 false force ignore_errors [a] b true fuel
      = mvFinish false fs0 cache0 true
          ⟨none, fs2, [(a, b)], childFold (fun e => b ++ e.drop a.length) kids emptyReport⟩ := by
    have h1 : cmd_mv fs0 cache0 false force ignore_errors [a] b true fuel
        = mvWithDest false force ignore_errors fs0 cache0 true fuel [a] (lstat fs0 b)
            (if isDirStat (lstat fs0 b)
              then some ([a].map (fun s => addSlash b ++ basename s))
              else if [a].length ≠ 1 then none else some [b]) := rfl
    rw [h1, hbfs]
    have h2 : mvWithDest false force ignore_errors fs0 cache0 true fuel [a]
          (none : Option FType)
          (if isDirStat (none : Option FType)
            then some ([a].map (fun s => addSlash b ++ basename s))
            else if [a].length ≠ 1 then none else some [b])
        = mvValidated false ignore_errors fs0 cache0 true
            (validLoop fs0 cache0 force ignore_errors fuel 0
              ⟨[a], [b], List.replicate 1 Mode.BOTH, 1, none, [], []⟩) := rfl
    rw [h2, hv]
    simp only [mvValidated]
    rw [planOf_kidState]
    exact congrArg (mvFinish false fs0 cache0 true) hexec
  have hch : (childFold (fun e => b ++ e.drop a.length) kids emptyReport).changed = [] :=
    childFold_changed _ kids emptyReport
  obtain ⟨hrc, hrep, hcache⟩ := mvFinish_real_components fs0 cache0 true
    ⟨none, fs2, [(a, b)], childFold (fun e => b ++ e.drop a.length) kids emptyReport⟩ rfl hch
  have hpwg : kids.Pairwise (fun x y =>
      (b ++ x.drop a.length) ≠ (b ++ y.drop a.length)) := by
    refine List.Pairwise.imp_of_mem ?_ hknd
    intro x y hx hy hne heq
    exact hne (hinj x hx y hy heq)
  have haddlen : (childFold (fun e => b ++ e.drop a.length) kids emptyReport).added.length
      = kids.length := by
    rw [childFold_added_length _ kids emptyReport hpwg (fun e _ => List.not_mem_nil _)]
    simp [emptyReport]
  have hdellen : (childFold (fun e => b ++ e.drop a.length) kids emptyReport).deleted.length
      = kids.length := by
    rw [childFold_deleted_length _ kids emptyReport hknd (fun e _ => List.not_mem_nil _)]
    simp [emptyReport]
  have hdelmem : ∀ q, q ∈ (childFold (fun e => b ++ e.drop a.length) kids emptyReport).deleted
      ↔ q ∈ kids := by
    intro q
    rw [childFold_deleted_mem]
    simp [emptyReport]
  have haddmem : ∀ q, q ∈ (childFold (fun e => b ++ e.drop a.length) kids emptyReport).added
      ↔ ∃ e ∈ kids, q = b ++ e.drop a.length := by
    intro q
    rw [childFold_added_mem]
    simp [emptyReport]
  have haddne : (childFold (fun e => b ++ e.drop a.length) kids emptyReport).added ≠ [] := by
    intro h0
    rw [h0] at haddlen
    simp only [List.length_nil] at haddlen
    omega
  have hout : (mvFinish false fs0 cache0 true
      ⟨none, fs2, [(a, b)], childFold (fun e => b ++ e.drop a.length) kids emptyReport⟩).outcome
      = Outcome.exit0 :=
    mvFinish_real_exit0 fs0 cache0 _ rfl hch haddne
  have hbadd : b ∉ (childFold (fun e => b ++ e.drop a.length) kids emptyReport).added := by
    rw [childFold_added_mem]
    rintro (h | ⟨e, he, hbe⟩)
    · exact List.not_mem_nil b h
    · exact hdropne e he hbe
  have hbcache : b ∉ (mvFinish false fs0 cache0 true
      ⟨none, fs2, [(a, b)], childFold (fun e => b ++ e.drop a.length) kids emptyReport⟩).cache := by
    rw [hcache]
    intro hmem
    rcases mem_foldl_pli _ _ (mem_foldl_erase _ _ hmem) with h1 | h2
    · exact hbc h1
    · exact hbadd h2
  rw [hrun]
  refine ⟨hrc, ?_, ?_, ?_, ?_, ?_, hout, hbcache⟩
  · rw [hrep]
    exact hch
  · intro q
    rw [hrep]
    exact hdelmem q
  · intro q
    rw [hrep]
    exact haddmem q
  · rw [hrep]
    exact haddlen
  · rw [hrep]
    exact hdellen

/-- Witness for the directory-move claim: `git mv a b` on a filesystem
holding directory `a` with regular files `a/x`, `a/y`, both tracked,
destination `b` absent — one rename `(a, b)`, adds `b/x`, `b/y`, deletes
`a/x`, `a/y`, changes nothing, exits 0, and creates no entry for `b`. -/
theorem mv_directory_move_one_rename_per_child_witness :
    (cmd_mv [(pstr "a", FType.directory), (pstr "a/x", FType.regular),
        (pstr "a/y", FType.regular)] [pstr "a/x", pstr "a/y"] false false false
        [pstr "a"] (pstr "b") true 5).renameCalls = [(pstr "a", pstr "b")] ∧
    (cmd_mv [(pstr "a", FType.directory), (pstr "a/x", FType.regular),
        (pstr "a/y", FType.regular)] [pstr "a/x", pstr "a/y"] false false false
        [pstr "a"] (pstr "b") true 5).report.changed = [] ∧
    (∀ q, q ∈ (cmd_mv [(pstr "a", FType.directory), (pstr "a/x", FType.regular),
        (pstr "a/y", FType.regular)] [pstr "a/x", pstr "a/y"] false false false
        [pstr "a"] (pstr "b") true 5).report.deleted ↔ q ∈ [pstr "a/x", pstr "a/y"]) ∧
    (∀ q, q ∈ (cmd_mv [(pstr "a", FType.directory), (pstr "a/x", FType.regular),
        (pstr "a/y", FType.regular)] [pstr "a/x", pstr "a/y"] false false false
        [pstr "a"] (pstr "b") true 5).report.added
      ↔ ∃ e ∈ [pstr "a/x", pstr "a/y"], q = pstr "b" ++ e.drop (pstr "a").length) ∧
    (cmd_mv [(pstr "a", FType.directory), (pstr "a/x", FType.regular),
        (pstr "a/y", FType.regular)] [pstr "a/x", pstr "a/y"] false false false
        [pstr "a"] (pstr "b") true 5).report.added.length = 2 ∧
    (cmd_mv [(pstr "a", FType.directory), (pstr "a/x", FType.regular),
        (pstr "a/y", FType.regular)] [pstr "a/x", pstr "a/y"] false false false
        [pstr "a"] (pstr "b") true 5).report.deleted.length = 2 ∧
    (cmd_mv [(pstr "a", FType.directory), (pstr "a/x", FType.regular),
        (pstr "a/y", FType.regular)] [pstr "a/x", pstr "a/y"] false false false
        [pstr "a"] (pstr "b") true 5).outcome = Outcome.exit0 ∧
    pstr "b" ∉ (cmd_mv [(pstr "a", FType.directory), (pstr "a/x", FType.regular),
        (pstr "a/y", FType.regular)] [pstr "a/x", pstr "a/y"] false false false
        [pstr "a"] (pstr "b") true 5).cache :=
  mv_directory_move_one_rename_and_per_child_index_updates
    [(pstr "a", FType.directory), (pstr "a/x", FType.regular), (pstr "a/y", FType.regular)]
    [pstr "a/x", pstr "a/y"] false false (pstr "a") (pstr "b")
    [pstr "a/x", pstr "a/y"] 5
    (by decide) (by decide) (by decide) (by decide) (by decide) (by decide)
    (by decide) (by decide) (by decide) (by decide) (by decide)

end GitMv

